import Mathlib

/-!
Verification of the apify-email-scraper repository.

The repository consists of near-duplicate Apify actor scripts (`src/main.js`
and the unnamed variants) that crawl pages with a headless browser, extract
email addresses with the regular expression
`/\b[A-Za-z0-9._%+-]+@[A-Za-z0-9.-]+\.[A-Z|a-z]{2,}\b/gi`, follow same-domain
links up to a page ceiling, deduplicate emails, and push records to a dataset.

This file gives a shallow embedding of the repository's own logic: the regex
scanner, the mailto stripping, the validation filters, the input handling, the
per-page handler and the bounded crawl loop.  Browser rendering, HTML text
extraction and the request queue are external collaborators; their outputs are
inputs of the embedded functions, and the queue behaviour (dedup by unique key,
`same-domain` enqueue strategy, absorbed request failures) is modelled from the
crawling framework's documented contract.  JavaScript string primitives
(`toLowerCase`, `trim`, `includes`, `replace`, `split`, `startsWith`) are
modelled for ASCII content, which is what every claim exercises.
-/

namespace Scraper

/-! ## Character classes (from the source regex and JS semantics) -/

/-- Uppercase `A`–`Z`. -/
def isAsciiUpper (c : Char) : Bool := 65 ≤ c.toNat && c.toNat ≤ 90

/-- Lowercase `a`–`z`. -/
def isAsciiLowerCh (c : Char) : Bool := 97 ≤ c.toNat && c.toNat ≤ 122

/-- Digits `0`–`9`. -/
def isAsciiDigit (c : Char) : Bool := 48 ≤ c.toNat && c.toNat ≤ 57

/-- ASCII letter. -/
def isAlphaCh (c : Char) : Bool := isAsciiUpper c || isAsciiLowerCh c

/-- JS regex word character `\w` = `[A-Za-z0-9_]`, used by the `\b` assertions. -/
def isWordCh (c : Char) : Bool := isAlphaCh c || isAsciiDigit c || c = '_'

/-- The regex local-part class `[A-Za-z0-9._%+-]`. -/
def isLocalCh (c : Char) : Bool :=
  isAlphaCh c || isAsciiDigit c || c = '.' || c = '_' || c = '%' || c = '+' || c = '-'

/-- The regex domain class `[A-Za-z0-9.-]`. -/
def isDomainCh (c : Char) : Bool := isAlphaCh c || isAsciiDigit c || c = '.' || c = '-'

/-- The regex TLD class `[A-Z|a-z]`: letters plus a literal `|`
(the `|` inside a character class is not alternation). -/
def isTldCh (c : Char) : Bool := isAlphaCh c || c = '|'

/-! ## JS `toLowerCase` and `trim` (ASCII model) -/

/-- Lower-casing of one character as JS `toLowerCase` acts on ASCII. -/
def charLower (c : Char) : Char :=
  if 65 ≤ c.toNat ∧ c.toNat ≤ 90 then Char.ofNat (c.toNat + 32) else c

/-- Whitespace recognised by JS `trim`, restricted to the ASCII range. -/
def wsNat (n : Nat) : Bool :=
  n == 32 || n == 9 || n == 10 || n == 13 || n == 11 || n == 12

/-- Whitespace test on characters. -/
def isJsWs (c : Char) : Bool := wsNat c.toNat

/-- JS `String.prototype.toLowerCase` (ASCII model). -/
def jsToLower (s : String) : String := ⟨s.data.map charLower⟩

/-- Trimming on the character list: drop whitespace at both ends. -/
def trimL (l : List Char) : List Char :=
  ((l.dropWhile isJsWs).reverse.dropWhile isJsWs).reverse

/-- JS `String.prototype.trim` (ASCII model). -/
def jsTrim (s : String) : String := ⟨trimL s.data⟩

/-- The cleaning applied before dedup in the handlers:
`email.toLowerCase().trim()` (src/main.js line 133). -/
def cleanEmail (s : String) : String := jsTrim (jsToLower s)

theorem charLower_toNat (c : Char) :
    (charLower c).toNat =
      if 65 ≤ c.toNat ∧ c.toNat ≤ 90 then c.toNat + 32 else c.toNat := by
  unfold charLower
  split
  · next h =>
    obtain ⟨h1, h2⟩ := h
    have h3 : 97 ≤ c.toNat + 32 := by omega
    have h4 : c.toNat + 32 ≤ 122 := by omega
    generalize c.toNat + 32 = m at h3 h4 ⊢
    interval_cases m <;> decide
  · rfl

theorem charLower_eq_self (c : Char) (h : ¬ (65 ≤ c.toNat ∧ c.toNat ≤ 90)) :
    charLower c = c := by
  unfold charLower
  rw [if_neg h]

theorem charLower_idem (c : Char) : charLower (charLower c) = charLower c := by
  have h := charLower_toNat c
  by_cases hc : 65 ≤ c.toNat ∧ c.toNat ≤ 90
  · rw [if_pos hc] at h
    exact charLower_eq_self _ (by omega)
  · rw [charLower_eq_self c hc, charLower_eq_self c hc]

theorem isJsWs_charLower (c : Char) : isJsWs (charLower c) = isJsWs c := by
  have h := charLower_toNat c
  unfold isJsWs
  by_cases hc : 65 ≤ c.toNat ∧ c.toNat ≤ 90
  · rw [if_pos hc] at h
    rw [h]
    have h1 : wsNat (c.toNat + 32) = false := by
      unfold wsNat; simp only [Bool.or_eq_false_iff, beq_eq_false_iff_ne, ne_eq]; omega
    have h2 : wsNat c.toNat = false := by
      unfold wsNat; simp only [Bool.or_eq_false_iff, beq_eq_false_iff_ne, ne_eq]; omega
    rw [h1, h2]
  · rw [if_neg hc] at h
    rw [h]

theorem map_charLower_idem (l : List Char) :
    (l.map charLower).map charLower = l.map charLower := by
  rw [List.map_map]
  exact List.map_congr_left fun c _ => charLower_idem c

theorem dropWhile_isJsWs_map_charLower (l : List Char) :
    (l.map charLower).dropWhile isJsWs = (l.dropWhile isJsWs).map charLower := by
  induction l with
  | nil => rfl
  | cons c rest ih =>
    simp only [List.map_cons, List.dropWhile_cons, isJsWs_charLower]
    by_cases h : isJsWs c
    · rw [if_pos (by simp [h]), if_pos (by simp [h]), ih]
    · rw [if_neg (by simp [h]), if_neg (by simp [h])]
      rfl

theorem trimL_map_charLower (l : List Char) :
    trimL (l.map charLower) = (trimL l).map charLower := by
  unfold trimL
  rw [dropWhile_isJsWs_map_charLower, ← List.map_reverse,
    dropWhile_isJsWs_map_charLower, ← List.map_reverse]

/-- The handlers' cleaned emails are fixed points of lower-casing. -/
theorem jsToLower_cleanEmail (s : String) : jsToLower (cleanEmail s) = cleanEmail s := by
  unfold cleanEmail jsTrim jsToLower
  simp only
  rw [trimL_map_charLower, map_charLower_idem]

/-! ## List-level string utilities (JS `includes`, `startsWith`, `endsWith`) -/

/-- Does `pat` occur at the very start of `l`?  (JS `startsWith`.) -/
def hasPre : List Char → List Char → Bool
  | [], _ => true
  | _ :: _, [] => false
  | p :: ps, c :: cs => p = c && hasPre ps cs

/-- Does `pat` occur anywhere in `l`?  (JS `includes`.) -/
def containsSub (pat : List Char) : List Char → Bool
  | [] => hasPre pat []
  | c :: rest => hasPre pat (c :: rest) || containsSub pat rest

/-- JS `s.includes(pat)`. -/
def strContains (s pat : String) : Bool := containsSub pat.data s.data

/-- Does `pat` occur at the very end of `l`?  (JS `endsWith`, used to model
the `$`-anchored extension regex.) -/
def endsWithL (pat l : List Char) : Bool := hasPre pat.reverse l.reverse

/-- Length of the longest prefix of `l` whose characters satisfy `p`. -/
def countWhile (p : Char → Bool) : List Char → Nat
  | [] => 0
  | c :: rest => if p c then countWhile p rest + 1 else 0

/-! ## The email regex

`EMAIL_REGEX = /\b[A-Za-z0-9._%+-]+@[A-Za-z0-9.-]+\.[A-Z|a-z]{2,}\b/gi`
(src/main.js line 5, identical in every variant).

The scanner below implements the JS engine's behaviour on this particular
pattern: at each start position with a satisfied word boundary, the local part
takes the maximal run of local characters (no shorter run can be followed by
`@`, since `@` is not a local character), then the domain part
`[A-Za-z0-9.-]+\.[A-Z|a-z]{2,}\b` is matched greedily with backtracking: the
`+` run shrinks from its maximal length until a literal `.` follows, the TLD
run shrinks from its maximal length (but not below 2) until the trailing word
boundary holds.  `String.prototype.match` with a global regex collects
non-overlapping matches left to right, resuming after each match.
The `i` flag is inert: every character class is closed under case. -/

/-- Word-character test on an optional character (`none` = outside the string). -/
def wordAt : Option Char → Bool
  | none => false
  | some c => isWordCh c

/-- JS `\b`: the two neighbouring positions disagree on word-ness. -/
def boundary (a b : Option Char) : Bool := wordAt a != wordAt b

/-- Backtracking search for `[A-Z|a-z]{2,}\b`: try match length `m`, then
`m - 1`, ..., down to `2`.  `l` starts at the TLD; a candidate length `m`
succeeds when the boundary between `l`'s characters at `m - 1` and `m` holds. -/
def tldSearch (l : List Char) : Nat → Option Nat
  | 0 => none
  | 1 => none
  | m + 2 =>
    if boundary (l.get? (m + 1)) (l.get? (m + 2)) then some (m + 2)
    else tldSearch l (m + 1)

/-- Match `[A-Z|a-z]{2,}\b` at the head of `l` (greedy with backtracking),
returning the consumed length. -/
def matchTld (l : List Char) : Option Nat := tldSearch l (countWhile isTldCh l)

/-- Backtracking search for `[A-Za-z0-9.-]+\.[A-Z|a-z]{2,}\b`: try domain-run
length `m`, requiring a literal `.` right after it and a TLD match after the
dot; on failure shrink `m`. -/
def domSearch (l : List Char) : Nat → Option Nat
  | 0 => none
  | m + 1 =>
    if l.get? (m + 1) = some '.' then
      match matchTld (l.drop (m + 2)) with
      | some t => some (m + 2 + t)
      | none => domSearch l m
    else domSearch l m

/-- Match `[A-Za-z0-9.-]+\.[A-Z|a-z]{2,}\b` at the head of `l`, returning the
consumed length. -/
def matchDomain (l : List Char) : Option Nat := domSearch l (countWhile isDomainCh l)

/-- Match the whole email pattern at the head of `l`, where `prev` is the
character just before `l` (for the leading `\b`).  Returns the match length. -/
def matchAt (prev : Option Char) (l : List Char) : Option Nat :=
  if boundary prev l.head? then
    let n1 := countWhile isLocalCh l
    if n1 = 0 then none
    else if l.get? n1 = some '@' then
      match matchDomain (l.drop (n1 + 1)) with
      | some d => some (n1 + 1 + d)
      | none => none
    else none
  else none

/-- Left-to-right global scan.  `skip` counts positions still inside the last
match (matches never overlap); `prev` is the previous character. -/
def scanGo : List Char → Option Char → Nat → List (List Char)
  | [], _, _ => []
  | c :: rest, _, (n + 1) => scanGo rest (some c) n
  | c :: rest, prev, 0 =>
    match matchAt prev (c :: rest) with
    | some len => ((c :: rest).take len) :: scanGo rest (some c) (len - 1)
    | none => scanGo rest (some c) 0

/-- The value of `s.match(EMAIL_REGEX) || []`: all matched substrings, in order. -/
def emailMatches (s : String) : List String :=
  (scanGo s.data none 0).map fun l => ⟨l⟩

theorem emailMatches_sanity1 :
    emailMatches "Contact: Jane@Example-Biz.TEST or x@y.co now" =
      ["Jane@Example-Biz.TEST", "x@y.co"] := by decide

theorem emailMatches_sanity2 : emailMatches "a@b.c and no others" = [] := by decide

theorem emailMatches_sanity3 : emailMatches "see foo.bar@baz.org." = ["foo.bar@baz.org"] := by
  decide

/-! ## mailto extraction

`links.map(link => link.href.replace('mailto:', '').split('?')[0])`
(src/main.js lines 120-123; identical in the other variants). -/

/-- Index of the first occurrence of `pat` in `l`, if any. -/
def firstIdx (pat : List Char) : List Char → Option Nat
  | [] => if hasPre pat [] then some 0 else none
  | c :: rest =>
    if hasPre pat (c :: rest) then some 0
    else (firstIdx pat rest).map (· + 1)

/-- JS `String.prototype.replace` with a string pattern: replace the first
occurrence only (list level). -/
def jsReplaceFirstL (pat rep l : List Char) : List Char :=
  match firstIdx pat l with
  | none => l
  | some i => l.take i ++ rep ++ l.drop (i + pat.length)

/-- JS `s.replace(pat, rep)` for string patterns. -/
def jsReplaceFirst (pat rep s : String) : String := ⟨jsReplaceFirstL pat.data rep.data s.data⟩

/-- JS `s.split(sep)[0]`: the part of `s` before the first separator
(all of `s` if the separator does not occur). -/
def jsSplitHead (sep : Char) (s : String) : String := ⟨s.data.takeWhile fun c => !(c = sep)⟩

/-- One mailto href to one raw candidate:
`href.replace('mailto:', '').split('?')[0]`. -/
def mailtoStrip (href : String) : String := jsSplitHead '?' (jsReplaceFirst "mailto:" "" href)

theorem firstIdx_of_hasPre (pat l : List Char) (h : hasPre pat l = true) :
    firstIdx pat l = some 0 := by
  cases l with
  | nil => unfold firstIdx; rw [if_pos h]
  | cons c rest => unfold firstIdx; rw [if_pos h]

theorem jsReplaceFirstL_of_hasPre (pat rep l : List Char) (h : hasPre pat l = true) :
    jsReplaceFirstL pat rep l = rep ++ l.drop pat.length := by
  unfold jsReplaceFirstL
  rw [firstIdx_of_hasPre pat l h]
  simp

/-- C8: for every anchor href beginning with the mailto scheme, the extracted
candidate is the href with the `mailto:` prefix removed and everything from the
first `?` onward stripped; in particular `mailto:info@site.test?subject=hi`
yields `info@site.test`. -/
theorem c8_mailto_strip (href : String)
    (h : hasPre "mailto:".data href.data = true) :
    (mailtoStrip href).data = (href.data.drop 7).takeWhile (fun c => !(c = '?')) ∧
    mailtoStrip "mailto:info@site.test?subject=hi" = "info@site.test" := by
  constructor
  · unfold mailtoStrip jsSplitHead jsReplaceFirst
    simp only
    rw [jsReplaceFirstL_of_hasPre _ _ _ h]
    have h7 : ("mailto:".data).length = 7 := by decide
    rw [h7]
    simp
  · decide

/-- Concrete instance of `c8_mailto_strip`. -/
theorem c8_mailto_strip_witness :
    (mailtoStrip "mailto:hi@a.test?body=x").data =
      ("mailto:hi@a.test?body=x".data.drop 7).takeWhile (fun c => !(c = '?')) :=
  (c8_mailto_strip "mailto:hi@a.test?body=x" (by decide)).1

/-! ## Email validation as implemented

The repository has no `isValidEmail` function; validation is inlined.
`src/main.js` lines 132-135 check only
`cleanEmail.includes('@') && cleanEmail.includes('.')`;
the homepage variant (src/unnamed/part_001 lines 153-159) additionally
rejects three denylisted substrings and requires `email.length < 100`. -/

/-- The inline check of src/main.js line 135 (and src/unnamed/part_002
line 159): `cleanEmail.includes('@') && cleanEmail.includes('.')`. -/
def basicValidation (s : String) : Bool := strContains s "@" && strContains s "."

/-- The `validEmails` filter of src/unnamed/part_001 lines 153-159. -/
def validEmailsFilter (email : String) : Bool :=
  strContains email "@" && strContains email "." &&
  !(strContains email "example.com") &&
  !(strContains email "your-email") &&
  !(strContains email "@email.com") &&
  decide (email.length < 100)

/-- Split a list at the first occurrence of `sep`:
`some (before, after)` when `sep` occurs, `none` otherwise. -/
def splitAtFirst (sep : Char) : List Char → Option (List Char × List Char)
  | [] => none
  | c :: rest =>
    if c = sep then some ([], rest)
    else (splitAtFirst sep rest).map fun p => (c :: p.1, p.2)

/-- Split a list at the last occurrence of `sep`. -/
def splitAtLast (sep : Char) (l : List Char) : Option (List Char × List Char) :=
  match splitAtFirst sep l.reverse with
  | none => none
  | some p => some (p.2.reverse, p.1.reverse)

/-- Modelled from the spec: the canonical email grammar `local@domain.tld`
(local part of alphanumerics plus `. _ % + -`; domain of
alphanumerics/dots/hyphens; TLD of at least 2 letters).  This is the spec-side
comparator; the repository never implements it. -/
def specEmailGrammar (s : String) : Bool :=
  match splitAtFirst '@' s.data with
  | none => false
  | some p =>
    !p.1.isEmpty && p.1.all isLocalCh &&
    match splitAtLast '.' p.2 with
    | none => false
    | some q =>
      !q.1.isEmpty && q.1.all isDomainCh && decide (2 ≤ q.2.length) && q.2.all isAlphaCh

/-- Modelled from the spec: `isValidEmail` as C1 states it — the grammar, the
strict length bounds `5 < length < 100`, and no denylisted substring. -/
def specIsValidEmail (s : String) : Bool :=
  specEmailGrammar s && decide (5 < s.length) && decide (s.length < 100) &&
  !(strContains s "example.com") &&
  !(strContains s "your-email") &&
  !(strContains s "@email.com")

/-- A grammar-conforming 100-character candidate (95 `a`s then `@b.co`). -/
def longSample : String := ⟨List.replicate 95 'a' ++ ('@' :: "b.co".data)⟩

theorem splitAtFirst_eq (sep : Char) (l a b : List Char)
    (h : splitAtFirst sep l = some (a, b)) : l = a ++ sep :: b := by
  induction l generalizing a b with
  | nil => simp [splitAtFirst] at h
  | cons c rest ih =>
    unfold splitAtFirst at h
    by_cases hc : c = sep
    · rw [if_pos hc] at h
      obtain ⟨h1, h2⟩ := by simpa using h
      subst h1; subst h2; subst hc
      rfl
    · rw [if_neg hc] at h
      cases hr : splitAtFirst sep rest with
      | none => rw [hr] at h; simp at h
      | some p =>
        rw [hr] at h
        obtain ⟨h1, h2⟩ := by simpa using h
        have := ih p.1 p.2 (by rw [hr])
        subst h2
        rw [← h1]
        simpa using this

theorem splitAtLast_eq (sep : Char) (l a b : List Char)
    (h : splitAtLast sep l = some (a, b)) : l = a ++ sep :: b := by
  unfold splitAtLast at h
  cases hr : splitAtFirst sep l.reverse with
  | none => rw [hr] at h; simp at h
  | some p =>
    rw [hr] at h
    obtain ⟨h1, h2⟩ := by simpa using h
    have hd := splitAtFirst_eq sep l.reverse p.1 p.2 (by rw [hr])
    have : l.reverse.reverse = (p.1 ++ sep :: p.2).reverse := by rw [hd]
    rw [List.reverse_reverse] at this
    rw [this, ← h1, ← h2]
    simp

/-- Containment means occurrence of the pattern at some offset. -/
theorem containsSub_iff (pat l : List Char) :
    containsSub pat l = true ↔ ∃ i, hasPre pat (l.drop i) = true := by
  induction l with
  | nil =>
    unfold containsSub
    constructor
    · intro h; exact ⟨0, h⟩
    · rintro ⟨i, hi⟩; simpa using hi
  | cons c rest ih =>
    unfold containsSub
    rw [Bool.or_eq_true]
    constructor
    · rintro (h | h)
      · exact ⟨0, h⟩
      · obtain ⟨i, hi⟩ := ih.mp h
        exact ⟨i + 1, by simpa using hi⟩
    · rintro ⟨i, hi⟩
      cases i with
      | zero => exact Or.inl (by simpa using hi)
      | succ j => exact Or.inr (ih.mpr ⟨j, by simpa using hi⟩)

theorem hasPre_single_at (c : Char) (a b : List Char) :
    hasPre [c] ((a ++ c :: b).drop a.length) = true := by
  rw [List.drop_left]
  simp [hasPre]

theorem strContains_of_decomp (s : String) (c : Char) (a b : List Char)
    (h : s.data = a ++ c :: b) : containsSub [c] s.data = true := by
  rw [containsSub_iff]
  exact ⟨a.length, by rw [h]; exact hasPre_single_at c a b⟩

/-- C1 counterexample: the implemented validation accepts `a@b.c`, which has
length 5 (not strictly greater than 5) and does not match the grammar (its TLD
is a single letter); the main variant's inline check additionally accepts a
grammar-conforming candidate of length 100.  So `isValidEmail` as claimed
(grammar AND `5 < length < 100` AND no denylisted substring) is not what the
code computes. -/
theorem c1_counterexample :
    validEmailsFilter "a@b.c" = true ∧
    basicValidation "a@b.c" = true ∧
    specIsValidEmail "a@b.c" = false ∧
    basicValidation longSample = true ∧
    100 ≤ longSample.length ∧
    specEmailGrammar longSample = true := by
  refine ⟨by decide, by decide, by decide, by decide, by decide, by decide⟩

/-- C1 amended: every spec-valid string is accepted, but the implemented
filter (src/unnamed/part_001 lines 153-159) accepts exactly the strings that
contain `@` and `.`, contain none of the three denylisted substrings, and have
length below 100 — the grammar and the lower length bound are not checked (and
the inline check of src/main.js only requires `@` and `.`). -/
theorem c1_amended_validation :
    (∀ s : String, specIsValidEmail s = true → validEmailsFilter s = true) ∧
    (∀ s : String, validEmailsFilter s = true ↔
      ((∃ i, hasPre "@".data (s.data.drop i) = true) ∧
       (∃ i, hasPre ".".data (s.data.drop i) = true) ∧
       ¬ (∃ i, hasPre "example.com".data (s.data.drop i) = true) ∧
       ¬ (∃ i, hasPre "your-email".data (s.data.drop i) = true) ∧
       ¬ (∃ i, hasPre "@email.com".data (s.data.drop i) = true) ∧
       s.length < 100)) := by
  constructor
  · intro s h
    unfold specIsValidEmail at h
    simp only [Bool.and_eq_true, Bool.not_eq_true', decide_eq_true_eq] at h
    obtain ⟨⟨⟨⟨⟨hg, _⟩, hlen⟩, hd1⟩, hd2⟩, hd3⟩ := h
    unfold specEmailGrammar at hg
    cases hsp : splitAtFirst '@' s.data with
    | none => rw [hsp] at hg; simp at hg
    | some p =>
      rw [hsp] at hg
      simp only [Bool.and_eq_true] at hg
      have hdec := splitAtFirst_eq '@' s.data p.1 p.2 (by rw [hsp])
      have hat : strContains s "@" = true := strContains_of_decomp s '@' p.1 p.2 hdec
      cases hsl : splitAtLast '.' p.2 with
      | none => rw [hsl] at hg; simp at hg
      | some q =>
        have hdec2 := splitAtLast_eq '.' p.2 q.1 q.2 (by rw [hsl])
        have hdot : strContains s "." = true := by
          apply strContains_of_decomp s '.' (p.1 ++ '@' :: q.1) q.2
          rw [hdec, hdec2]
          simp
        unfold validEmailsFilter
        unfold strContains at hat hdot
        simp only [Bool.and_eq_true, Bool.not_eq_true', decide_eq_true_eq]
        refine ⟨⟨⟨⟨⟨hat, hdot⟩, ?_⟩, ?_⟩, ?_⟩, hlen⟩
        · unfold strContains at hd1; simpa using hd1
        · unfold strContains at hd2; simpa using hd2
        · unfold strContains at hd3; simpa using hd3
  · intro s
    unfold validEmailsFilter strContains
    simp only [Bool.and_eq_true, Bool.not_eq_true', decide_eq_true_eq,
      ← Bool.not_eq_true, containsSub_iff]
    constructor
    · rintro ⟨⟨⟨⟨⟨h1, h2⟩, h3⟩, h4⟩, h5⟩, h6⟩
      exact ⟨h1, h2, by simpa using h3, by simpa using h4, by simpa using h5, h6⟩
    · rintro ⟨h1, h2, h3, h4, h5, h6⟩
      exact ⟨⟨⟨⟨⟨h1, h2⟩, by simpa using h3⟩, by simpa using h4⟩, by simpa using h5⟩, h6⟩

/-- Concrete instance of `c1_amended_validation`: the spec-valid address
`jane@example-biz.test` passes the implemented filter. -/
theorem c1_amended_validation_witness :
    validEmailsFilter "jane@example-biz.test" = true :=
  c1_amended_validation.1 "jane@example-biz.test" (by decide)

/-! ## Input handling

src/unnamed/part_002 lines 15-28 (same logic in part_001 lines 14-27):

```
let urls = [];
if (input?.urls && Array.isArray(input.urls)) { urls = input.urls; }
else if (input?.url) { urls = [input.url]; }
if (urls.length === 0) { throw new Error('At least one URL required ...'); }
```

`urlsField = some l` models `urls` present as an array (an empty array is
truthy in JS, so `some []` still takes the first branch); `urlField = some u`
models `url` present, where the empty string is falsy. -/

def getInputUrls (urlsField : Option (List String)) (urlField : Option String) :
    Except String (List String) :=
  let urls : List String :=
    match urlsField with
    | some l => l
    | none =>
      match urlField with
      | some u => if u = "" then [] else [u]
      | none => []
  if urls.isEmpty then
    Except.error "At least one URL required in either url or urls field"
  else Except.ok urls

/-- C3 counterexample: supplying both `url` and `urls` does not raise an
input-validation error — the `urls` field silently takes precedence. -/
theorem c3_counterexample :
    getInputUrls (some ["http://b.test"]) (some "http://a.test") =
      Except.ok ["http://b.test"] := rfl

/-- C3 amended: `url` and `urls` are not mutually exclusive.  When both are
given and `urls` is a nonempty array, `urls` wins and no error is raised; the
input-validation error occurs exactly when the effective list is empty
(`urls` given as `[]`, or `urls` absent and `url` absent or empty). -/
theorem c3_amended_input :
    (∀ (l : List String) (u : String), l ≠ [] →
      getInputUrls (some l) (some u) = Except.ok l) ∧
    (∀ (urlsField : Option (List String)) (urlField : Option String),
      (∃ e, getInputUrls urlsField urlField = Except.error e) ↔
        (urlsField = some [] ∨
          (urlsField = none ∧ (urlField = none ∨ urlField = some "")))) := by
  constructor
  · intro l u hl
    unfold getInputUrls
    simp only
    rw [if_neg (by simpa using hl)]
  · intro urlsField urlField
    cases urlsField with
    | some l =>
      cases l with
      | nil => simp [getInputUrls]
      | cons a rest => simp [getInputUrls]
    | none =>
      cases urlField with
      | none => simp [getInputUrls]
      | some u =>
        by_cases hu : u = ""
        · subst hu
          simp [getInputUrls]
        · simp [getInputUrls, hu]

/-- Concrete instance of `c3_amended_input`: both fields given, `urls` wins. -/
theorem c3_amended_input_witness :
    getInputUrls (some ["http://x.test", "http://y.test"]) (some "http://z.test") =
      Except.ok ["http://x.test", "http://y.test"] :=
  c3_amended_input.1 ["http://x.test", "http://y.test"] "http://z.test" (by decide)

/-! ## Extraction

src/main.js lines 94-127: Method 1 matches the regex on the rendered visible
text; Method 2 runs only `if (emails.length === 0)` and matches the regex on
the HTML-derived body text; Method 3 always appends the stripped mailto hrefs.
The rendered text, the HTML-derived text and the mailto href list come from
the page-rendering collaborator and are the inputs here. -/

def extractMain (textContent htmlText : String) (mailtoHrefs : List String) :
    List String :=
  let emails : List String := []
  let emails := emails ++ emailMatches textContent
  let emails := if emails.length = 0 then emails ++ emailMatches htmlText else emails
  emails ++ mailtoHrefs.map mailtoStrip

/-- Insert each element of `xs` into `acc` unless already present, keeping
insertion order — the behaviour of adding to a JS `Set` and reading it back. -/
def addUnique (acc : List String) (xs : List String) : List String :=
  match xs with
  | [] => acc
  | x :: rest => addUnique (if acc.contains x then acc else acc ++ [x]) rest

/-- The homepage variant's extraction (src/unnamed/part_001 lines 80-112):
all three methods always run and their lower-cased results are merged into one
`Set`, with no fallback condition on the HTML pass. -/
def extractHomepage (textContent htmlText : String) (mailtoHrefs : List String) :
    List String :=
  let emails : List String := []
  let emails := addUnique emails ((emailMatches textContent).map jsToLower)
  let emails := addUnique emails ((emailMatches htmlText).map jsToLower)
  addUnique emails ((mailtoHrefs.map mailtoStrip).map jsToLower)

/-- C6 counterexample: in the homepage variant the HTML pass contributes even
when the text pass already yielded a candidate — `x@y.co` appears in the
output although the text pass found `a@b.co`. -/
theorem c6_counterexample :
    emailMatches "Contact a@b.co now" = ["a@b.co"] ∧
    extractHomepage "Contact a@b.co now" "write to x@y.co" [] =
      ["a@b.co", "x@y.co"] := by
  refine ⟨by decide, by decide⟩

/-- C6 amended: in the src/main.js (and part_002) extractor the HTML pass runs
only when the text pass yields zero candidates: whenever the text pass is
nonempty, the result is exactly the text matches followed by the mailto
candidates, independent of the HTML input.  The homepage variant
(src/unnamed/part_001) instead always merges both passes. -/
theorem c6_amended_fallback (textContent htmlA htmlB : String)
    (mailtoHrefs : List String) (h : emailMatches textContent ≠ []) :
    extractMain textContent htmlA mailtoHrefs =
      emailMatches textContent ++ mailtoHrefs.map mailtoStrip ∧
    extractMain textContent htmlA mailtoHrefs =
      extractMain textContent htmlB mailtoHrefs := by
  have hlen : ¬ (([] ++ emailMatches textContent).length = 0) := by
    simpa using fun hz => h (List.eq_nil_of_length_eq_zero hz)
  constructor
  · unfold extractMain
    simp only [if_neg hlen]
    simp
  · unfold extractMain
    simp only [if_neg hlen]

/-- Concrete instance of `c6_amended_fallback`. -/
theorem c6_amended_fallback_witness :
    extractMain "mail a@b.co" "zz@qq.co" [] =
      emailMatches "mail a@b.co" ++ ([] : List String).map mailtoStrip :=
  (c6_amended_fallback "mail a@b.co" "zz@qq.co" "" [] (by decide)).1

/-! ## Statefulness of the regex object (C9)

`EMAIL_REGEX` is one module-global `RegExp` object with the `g` flag, so it
carries a mutable `lastIndex` slot.  The handlers only ever use it through
`String.prototype.match`, which for a global regex ignores the incoming
`lastIndex`, scans the whole string from index 0, and leaves `lastIndex`
reset to 0 (ECMA-262, RegExp.prototype [Symbol.match]). -/

structure JsRegexSt where
  lastIndex : Nat
deriving DecidableEq

/-- Evaluation of `s.match(re)` for the global email regex: result list plus the regex
object's state afterwards. -/
def jsMatchGlobal (_re : JsRegexSt) (s : String) : List String × JsRegexSt :=
  (emailMatches s, { lastIndex := 0 })

/-- The src/main.js extraction with the regex object's state threaded through
both regex passes. -/
def extractMainSt (re : JsRegexSt) (textContent htmlText : String)
    (mailtoHrefs : List String) : List String × JsRegexSt :=
  let p1 := jsMatchGlobal re textContent
  let p2 :=
    if p1.1.length = 0 then
      let q := jsMatchGlobal p1.2 htmlText
      (p1.1 ++ q.1, q.2)
    else p1
  (p2.1 ++ mailtoHrefs.map mailtoStrip, p2.2)

/-- C9: the extractor is stateless and idempotent.  Its candidate list does
not depend on the regex object's incoming `lastIndex`; running the extraction
twice in sequence on the same rendered content (threading the regex state)
returns the same candidates both times, and the result agrees with the pure
extraction function. -/
theorem c9_extractor_stateless (re₁ re₂ : JsRegexSt) (textContent htmlText : String)
    (mailtoHrefs : List String) :
    (extractMainSt re₁ textContent htmlText mailtoHrefs).1 =
      (extractMainSt re₂ textContent htmlText mailtoHrefs).1 ∧
    (extractMainSt (extractMainSt re₁ textContent htmlText mailtoHrefs).2
        textContent htmlText mailtoHrefs).1 =
      (extractMainSt re₁ textContent htmlText mailtoHrefs).1 ∧
    (extractMainSt re₁ textContent htmlText mailtoHrefs).1 =
      extractMain textContent htmlText mailtoHrefs := by
  refine ⟨rfl, rfl, ?_⟩
  unfold extractMainSt extractMain jsMatchGlobal
  simp only [List.nil_append]
  split <;> rfl

/-! ## Storing unique emails (src/main.js lines 131-143)

```
for (const email of emails) {
    const cleanEmail = email.toLowerCase().trim();
    if (cleanEmail.includes('@') && cleanEmail.includes('.') && !uniqueEmails.has(cleanEmail)) {
        uniqueEmails.add(cleanEmail);
        await dataset.pushData({ url: url, email: cleanEmail, foundOn: ... });
    }
}
```

`emails` holds the accumulated `uniqueEmails` set in insertion order and
`records` the dataset pushes in order. -/

structure EmailRec where
  url : String
  email : String
deriving DecidableEq

def storeEmails (url : String) :
    List String → List String → List EmailRec → List String × List EmailRec
  | [], emails, records => (emails, records)
  | e :: rest, emails, records =>
    if basicValidation (cleanEmail e) && !(emails.contains (cleanEmail e)) then
      storeEmails url rest (emails ++ [cleanEmail e]) (records ++ [⟨url, cleanEmail e⟩])
    else
      storeEmails url rest emails records

theorem storeEmails_mem_mono (url : String) (cands emails : List String)
    (records : List EmailRec) (r : EmailRec) (h : r ∈ records) :
    r ∈ (storeEmails url cands emails records).2 := by
  induction cands generalizing emails records with
  | nil => simpa [storeEmails] using h
  | cons e rest ih =>
    unfold storeEmails
    split
    · exact ih _ _ (by simp [h])
    · exact ih _ _ h

theorem storeEmails_hits (url : String) (cands : List String) :
    ∀ (emails : List String) (records : List EmailRec) (c : String),
      c ∈ cands → basicValidation (cleanEmail c) = true → cleanEmail c ∉ emails →
      ∃ r ∈ (storeEmails url cands emails records).2,
        r.email = cleanEmail c ∧ r.url = url := by
  induction cands with
  | nil => intro _ _ _ hc; cases hc
  | cons e rest ih =>
    intro emails records c hc hv hnew
    unfold storeEmails
    by_cases he : (basicValidation (cleanEmail e) && !(emails.contains (cleanEmail e))) = true
    · rw [if_pos he]
      by_cases heq : cleanEmail e = cleanEmail c
      · exact ⟨⟨url, cleanEmail e⟩,
          storeEmails_mem_mono url rest _ _ _ (by simp), heq, rfl⟩
      · have hc2 : c ∈ rest := by
          cases hc with
          | head => exact absurd rfl heq
          | tail _ hr => exact hr
        apply ih _ _ c hc2 hv
        intro hmem
        rcases List.mem_append.mp hmem with h1 | h2
        · exact hnew h1
        · have h3 : cleanEmail c = cleanEmail e := by simpa using h2
          exact heq h3.symm
    · rw [if_neg he]
      have hc2 : c ∈ rest := by
        cases hc with
        | head =>
          exfalso
          apply he
          simp only [Bool.and_eq_true, Bool.not_eq_true']
          refine ⟨hv, ?_⟩
          simpa using hnew
        | tail _ hr => exact hr
      exact ih _ _ c hc2 hv hnew

/-- C10: mailto candidates bypass the email regex.  For any page content, any
mailto href in the page yields the stripped candidate, and the store loop
emits it as an email record whenever its cleaned form contains `@` and `.` and
is not already recorded — no grammar, no length bound.  (The witness below
instantiates it with `mailto:bad mail@x.?subject=1`, whose candidate
`bad mail@x.` contains a space and a trailing dot and fails the grammar.) -/
theorem c10_mailto_bypass (url textContent htmlText : String)
    (mailtoHrefs : List String) (h : String) (emails : List String)
    (records : List EmailRec)
    (hmem : h ∈ mailtoHrefs)
    (hat : strContains (cleanEmail (mailtoStrip h)) "@" = true)
    (hdot : strContains (cleanEmail (mailtoStrip h)) "." = true)
    (hnew : cleanEmail (mailtoStrip h) ∉ emails) :
    ∃ r ∈ (storeEmails url (extractMain textContent htmlText mailtoHrefs)
        emails records).2,
      r.email = cleanEmail (mailtoStrip h) ∧ r.url = url := by
  apply storeEmails_hits
  · unfold extractMain
    simp only
    exact List.mem_append_right _ (List.mem_map_of_mem mailtoStrip hmem)
  · unfold basicValidation
    rw [hat, hdot]
    rfl
  · exact hnew

/-- Concrete instance of `c10_mailto_bypass`: the grammar-violating candidate
`bad mail@x.` (space inside, trailing dot) is emitted. -/
theorem c10_mailto_bypass_witness :
    (∃ r ∈ (storeEmails "http://s.test" (extractMain "" ""
        ["mailto:bad mail@x.?subject=1"]) [] []).2,
      r.email = cleanEmail (mailtoStrip "mailto:bad mail@x.?subject=1") ∧
      r.url = "http://s.test") ∧
    cleanEmail (mailtoStrip "mailto:bad mail@x.?subject=1") = "bad mail@x." ∧
    specEmailGrammar "bad mail@x." = false ∧
    emailMatches "bad mail@x." = [] :=
  ⟨c10_mailto_bypass "http://s.test" "" "" ["mailto:bad mail@x.?subject=1"]
      "mailto:bad mail@x.?subject=1" [] [] (by decide) (by decide) (by decide)
      (by decide),
    by decide, by decide, by decide⟩

/-! ## URLs: origins, domains, link filtering

The enqueue call (src/main.js lines 147-172) uses the crawling framework's
`same-domain` strategy, which admits any URL whose registrable domain equals
the current page's registrable domain — subdomains included, scheme ignored.
`regDomain` models the registrable domain as the last two dot-separated host
labels, which is exact for ordinary two-level hosts such as `.com` or `.test`
sites.  `sameOriginB` is the spec's notion (identical scheme and host),
modelled for comparison; the code never computes it. -/

/-- JS `url.startsWith('http')` (src/main.js line 155). -/
def httpPre (u : String) : Bool := hasPre "http".data u.data

/-- Characters that may appear in a host (stop at `/`, `?`, `#`, `:`). -/
def hostChar (c : Char) : Bool := !(c = '/' || c = '?' || c = '#' || c = ':')

/-- The host part of a URL: what follows `://` up to the first delimiter. -/
def hostOf (u : String) : String :=
  match firstIdx "://".data u.data with
  | none => ""
  | some i => ⟨(u.data.drop (i + 3)).takeWhile hostChar⟩

/-- The scheme part of a URL: what precedes `://`. -/
def schemeOf (u : String) : String :=
  match firstIdx "://".data u.data with
  | none => ""
  | some i => ⟨u.data.take i⟩

/-- Split on `.` (list level). -/
def splitDots : List Char → List (List Char)
  | [] => [[]]
  | c :: rest =>
    match splitDots rest with
    | [] => [[]]
    | h :: t => if c = '.' then [] :: h :: t else (c :: h) :: t

/-- The registrable domain of a host: its last two labels. -/
def regDomain (host : String) : String :=
  match (splitDots host.data).reverse with
  | tld :: sld :: _ => ⟨sld ++ '.' :: tld⟩
  | _ => host

/-- The framework's `same-domain` enqueue strategy. -/
def sameDomainB (a b : String) : Bool := regDomain (hostOf a) == regDomain (hostOf b)

/-- Modelled from the spec: same-origin means identical scheme and host,
ignoring path and query. -/
def sameOriginB (a b : String) : Bool :=
  (schemeOf a == schemeOf b) && (hostOf a == hostOf b)

/-- The extension denylist of the `skipExtensions` regex
(src/main.js line 158). -/
def skipExtList : List String :=
  ["jpg", "jpeg", "png", "gif", "svg", "webp", "mp4", "mp3", "pdf", "zip",
   "rar", "doc", "docx", "xls", "xlsx", "ppt", "pptx", "css", "js", "ico",
   "xml", "json"]

/-- The test `/\.(jpg|...|json)$/i.test(url)`: the lower-cased URL ends in a dot
followed by a denylisted extension. -/
def skipExt (u : String) : Bool :=
  skipExtList.any fun e => endsWithL ('.' :: e.data) (jsToLower u).data

/-- The `transformRequestFunction` (src/main.js lines 150-171) as a predicate:
drop the request when the page ceiling is hit again (`recheck`, absent in the
part_002 variant), when the URL is not http(s), matches the extension
denylist, or was already processed.  The `req.priority` assignment for
contact-like paths mutates a field the framework's queue never consults, so it
has no observable effect and is not modelled. -/
def transformOk (recheck : Bool) (pagesNow K : Nat) (processed : List String)
    (u : String) : Bool :=
  if recheck && decide (K ≤ pagesNow) then false
  else if !httpPre u then false
  else if skipExt u then false
  else if processed.contains u then false
  else true

/-- The framework queue's dedup on unique keys: walk the candidate list,
keeping each URL not seen before (and extending the seen set as it goes). -/
def enqueueCandidates (seen : List String) : List String → List String
  | [] => []
  | u :: rest =>
    if seen.contains u then enqueueCandidates seen rest
    else u :: enqueueCandidates (u :: seen) rest

theorem enqueueCandidates_length_le (seen l : List String) :
    (enqueueCandidates seen l).length ≤ l.length := by
  induction l generalizing seen with
  | nil => simp [enqueueCandidates]
  | cons u rest ih =>
    unfold enqueueCandidates
    split
    · exact Nat.le_trans (ih seen) (by simp)
    · simpa using ih (u :: seen)

theorem enqueueCandidates_mem (seen l : List String) (v : String)
    (h : v ∈ enqueueCandidates seen l) : v ∈ l := by
  induction l generalizing seen with
  | nil => simp [enqueueCandidates] at h
  | cons u rest ih =>
    unfold enqueueCandidates at h
    split at h
    · exact List.mem_cons_of_mem u (ih seen h)
    · cases h with
      | head => exact List.mem_cons_self _ _
      | tail _ hr => exact List.mem_cons_of_mem _ (ih (_ :: seen) hr)

/-! ## The bounded crawl loop

One crawl of one start URL, following src/main.js lines 57-199 (and the inner
crawler of src/unnamed/part_002).  The rendering collaborator is an `Env`:
whether navigation succeeds, and the rendered artifacts per URL.  One request
is dequeued per step:

* if `pagesProcessed >= maxRequestsPerCrawl`, the `preNavigationHooks` guard
  throws before navigation and the request fails (`noRetry`);
* if navigation fails, `failedRequestHandler` logs and absorbs the failure;
* otherwise `requestHandler` runs: it skips URLs already in `processedUrls`,
  else records the page, extracts and stores emails, and — only while below
  the ceiling — enqueues filtered same-domain links (`limit` many, deduped by
  the queue).

The loop is driven by explicit fuel and returns `none` only when fuel runs
out; `crawlFuel_total` shows the chosen fuel always suffices, which is the
termination of the crawl loop. -/

structure PageData where
  text : String
  htmlText : String
  mailtoHrefs : List String
  links : List String
deriving DecidableEq

structure Env where
  fetchOk : String → Bool
  page : String → PageData

structure CrawlState where
  seen : List String
  processed : List String
  pages : Nat
  navAttempts : Nat
  dequeued : Nat
  failed : Nat
  emails : List String
  records : List EmailRec
deriving DecidableEq

/-- State after the pre-navigation guard throws (no navigation). -/
def failStep (st : CrawlState) : CrawlState :=
  { st with dequeued := st.dequeued + 1, failed := st.failed + 1 }

/-- State after a failed navigation (absorbed by `failedRequestHandler`). -/
def renderFailStep (st : CrawlState) : CrawlState :=
  { st with
    dequeued := st.dequeued + 1
    navAttempts := st.navAttempts + 1
    failed := st.failed + 1 }

/-- State after the handler skips an already-processed URL. -/
def skipStep (st : CrawlState) : CrawlState :=
  { st with dequeued := st.dequeued + 1, navAttempts := st.navAttempts + 1 }

/-- One successful page visit: mark processed, bump the page counter, store
extracted emails, and compute the links to enqueue.  `budget` is the `limit`
passed to the enqueue call, as a function of the handled and pending request
counts (a constant 10 in src/main.js; the remaining-slots computation in
src/unnamed/part_002).  Returns the new queue and state. -/
def fetchStep (env : Env) (K gate : Nat) (budget : Nat → Nat → Nat)
    (recheck : Bool) (u : String) (rest : List String) (st : CrawlState) :
    List String × CrawlState :=
  let pg := env.page u
  let er := storeEmails u (extractMain pg.text pg.htmlText pg.mailtoHrefs)
    st.emails st.records
  let newLinks :=
    if st.pages + 1 < gate then
      enqueueCandidates st.seen
        (((pg.links.filter fun v => sameDomainB u v).filter fun v =>
            transformOk recheck (st.pages + 1) K (u :: st.processed) v).take
          (budget st.dequeued rest.length))
    else []
  (rest ++ newLinks,
   { seen := st.seen ++ newLinks
     processed := u :: st.processed
     pages := st.pages + 1
     navAttempts := st.navAttempts + 1
     dequeued := st.dequeued + 1
     failed := st.failed
     emails := er.1
     records := er.2 })

/-- The crawl loop.  `K` is `maxRequestsPerCrawl`, `gate` the constant in the
`if (pagesProcessed < …)` guard around the enqueue call (`K` in src/main.js,
the literal 3 in src/unnamed/part_002). -/
def crawlFuel (env : Env) (K gate : Nat) (budget : Nat → Nat → Nat)
    (recheck : Bool) : Nat → List String → CrawlState → Option CrawlState
  | 0, _, _ => none
  | _ + 1, [], st => some st
  | fuel + 1, u :: rest, st =>
    if K ≤ st.pages then
      crawlFuel env K gate budget recheck fuel rest (failStep st)
    else if env.fetchOk u then
      if st.processed.contains u then
        crawlFuel env K gate budget recheck fuel rest (skipStep st)
      else
        crawlFuel env K gate budget recheck fuel
          (fetchStep env K gate budget recheck u rest st).1
          (fetchStep env K gate budget recheck u rest st).2
    else
      crawlFuel env K gate budget recheck fuel rest (renderFailStep st)

/-- The run state before the first dequeue; the start URL is the queue's one
known unique key. -/
def initState (start : String) : CrawlState :=
  { seen := [start], processed := [], pages := 0, navAttempts := 0,
    dequeued := 0, failed := 0, emails := [], records := [] }

/-- The src/main.js crawler on one start URL: enqueue limit 10, enqueue gate
equal to the ceiling, with the transform's ceiling recheck. -/
def crawlMain (env : Env) (K : Nat) (start : String) : Option CrawlState :=
  crawlFuel env K K (fun _ _ => 10) true (K * 11 + 2) [start] (initState start)

/-- The src/unnamed/part_002 inner crawler on one start URL: ceiling 3 (the
default `MAX_REQUESTS_PER_CRAWL`), enqueue gate the literal 3, limit the
remaining-slots computation `Math.max(0, 3 - handled - pending)`. -/
def crawlP2 (env : Env) (start : String) : Option CrawlState :=
  crawlFuel env 3 3 (fun d p => 3 - d - p) false 14 [start] (initState start)

theorem fetchStep_pages (env : Env) (K gate : Nat) (budget : Nat → Nat → Nat)
    (recheck : Bool) (u : String) (rest : List String) (st : CrawlState) :
    (fetchStep env K gate budget recheck u rest st).2.pages = st.pages + 1 := rfl

theorem fetchStep_queue_length (env : Env) (K gate : Nat)
    (budget : Nat → Nat → Nat) (recheck : Bool) (u : String)
    (rest : List String) (st : CrawlState) :
    (fetchStep env K gate budget recheck u rest st).1.length ≤
      rest.length + budget st.dequeued rest.length := by
  unfold fetchStep
  simp only [List.length_append, Nat.add_le_add_iff_left]
  split
  · exact Nat.le_trans
      (enqueueCandidates_length_le _ _)
      (List.length_take_le _ _)
  · simp

/-- Fuel sufficiency: with fuel exceeding
`queue length + (pages remaining) * (limit + 1)`, the loop always reaches the
empty queue — the crawl terminates for every environment, ceiling and link
graph.  `L` bounds the enqueue limit. -/
theorem crawlFuel_total (env : Env) (K gate : Nat) (budget : Nat → Nat → Nat)
    (recheck : Bool) (L : Nat) (hB : ∀ d p, budget d p ≤ L) :
    ∀ (fuel : Nat) (q : List String) (st : CrawlState),
      q.length + (K - st.pages) * (L + 1) < fuel →
      ∃ out, crawlFuel env K gate budget recheck fuel q st = some out := by
  intro fuel
  induction fuel with
  | zero => intro q st h; omega
  | succ n ih =>
    intro q st h
    cases q with
    | nil => exact ⟨st, rfl⟩
    | cons u rest =>
      unfold crawlFuel
      by_cases h1 : K ≤ st.pages
      · rw [if_pos h1]
        apply ih
        have hp : (failStep st).pages = st.pages := rfl
        rw [hp]
        simp only [List.length_cons] at h
        omega
      · rw [if_neg h1]
        by_cases h2 : env.fetchOk u = true
        · rw [if_pos h2]
          by_cases h3 : st.processed.contains u = true
          · rw [if_pos h3]
            apply ih
            have hp : (skipStep st).pages = st.pages := rfl
            rw [hp]
            simp only [List.length_cons] at h
            omega
          · rw [if_neg h3]
            apply ih
            rw [fetchStep_pages]
            have hlen := fetchStep_queue_length env K gate budget recheck u rest st
            have hbud := hB st.dequeued rest.length
            have hmul : (K - (st.pages + 1)) * (L + 1) + (L + 1) =
                (K - st.pages) * (L + 1) := by
              have ha : K - st.pages = (K - (st.pages + 1)) + 1 := by omega
              rw [ha, Nat.succ_mul]
            simp only [List.length_cons] at h
            generalize hA : (K - st.pages) * (L + 1) = A at h hmul
            generalize hBq : (K - (st.pages + 1)) * (L + 1) = B at hmul
            omega
        · rw [if_neg h2]
          apply ih
          have hp : (renderFailStep st).pages = st.pages := rfl
          rw [hp]
          simp only [List.length_cons] at h
          omega

/-- Step-indexed invariant engine for the crawl loop: any property of
(queue, state) preserved by the four step kinds holds of the final state. -/
theorem crawlFuel_inv (env : Env) (K gate : Nat) (budget : Nat → Nat → Nat)
    (recheck : Bool) (P : List String → CrawlState → Prop)
    (hfail : ∀ u rest st, K ≤ st.pages → P (u :: rest) st → P rest (failStep st))
    (hrender : ∀ u rest st, ¬ K ≤ st.pages → env.fetchOk u = false →
      P (u :: rest) st → P rest (renderFailStep st))
    (hskip : ∀ u rest st, ¬ K ≤ st.pages → env.fetchOk u = true →
      st.processed.contains u = true → P (u :: rest) st → P rest (skipStep st))
    (hfetch : ∀ u rest st, ¬ K ≤ st.pages → env.fetchOk u = true →
      st.processed.contains u = false → P (u :: rest) st →
      P (fetchStep env K gate budget recheck u rest st).1
        (fetchStep env K gate budget recheck u rest st).2) :
    ∀ (fuel : Nat) (q : List String) (st out : CrawlState),
      crawlFuel env K gate budget recheck fuel q st = some out →
      P q st → P [] out := by
  intro fuel
  induction fuel with
  | zero => intro q st out h; simp [crawlFuel] at h
  | succ n ih =>
    intro q st out h hP
    cases q with
    | nil =>
      have : st = out := by simpa [crawlFuel] using h
      exact this ▸ hP
    | cons u rest =>
      unfold crawlFuel at h
      by_cases h1 : K ≤ st.pages
      · rw [if_pos h1] at h
        exact ih _ _ _ h (hfail u rest st h1 hP)
      · rw [if_neg h1] at h
        by_cases h2 : env.fetchOk u = true
        · rw [if_pos h2] at h
          by_cases h3 : st.processed.contains u = true
          · rw [if_pos h3] at h
            exact ih _ _ _ h (hskip u rest st h1 h2 h3 hP)
          · rw [if_neg h3] at h
            exact ih _ _ _ h
              (hfetch u rest st h1 h2 (by simpa using h3) hP)
        · rw [if_neg h2] at h
          exact ih _ _ _ h (hrender u rest st h1 (by simpa using h2) hP)

/-! ## C4: the page ceiling -/

/-- Scenario environment: the start page links to five same-domain pages. -/
def envC4 : Env :=
  { fetchOk := fun _ => true
    page := fun u =>
      if u = "https://site.test/" then
        ⟨"", "", [], ["https://site.test/a", "https://site.test/b",
          "https://site.test/c", "https://site.test/d", "https://site.test/e"]⟩
      else ⟨"", "", [], []⟩ }

/-- C4: for every environment, every finite ceiling `K` and every link graph
(cyclic ones included), the crawler processes at most `K` pages and the crawl
loop terminates (the fuelled loop always completes); with `K = 1` and a start
page linking to five same-domain pages, exactly one page is navigated to and
processed, so the reported `pagesScraped` is 1. -/
theorem c4_page_ceiling :
    (∀ (env : Env) (K : Nat) (start : String) (out : CrawlState),
      crawlMain env K start = some out → out.pages ≤ K) ∧
    (∀ (env : Env) (K : Nat) (start : String),
      ∃ out, crawlMain env K start = some out) ∧
    (crawlMain envC4 1 "https://site.test/").map
        (fun o => (o.pages, o.navAttempts)) = some (1, 1) := by
  refine ⟨?_, ?_, by decide⟩
  · intro env K start out h
    have key := crawlFuel_inv env K K (fun _ _ => 10) true
      (fun _ st => st.pages ≤ K)
      (fun _ _ _ _ hP => hP)
      (fun _ _ _ _ _ hP => hP)
      (fun _ _ _ _ _ _ hP => hP)
      (fun u rest st h1 _ _ _ => by
        show (fetchStep env K K (fun _ _ => 10) true u rest st).2.pages ≤ K
        rw [fetchStep_pages]
        omega)
      _ _ _ _ h (Nat.zero_le K)
    exact key
  · intro env K start
    apply crawlFuel_total env K K (fun _ _ => 10) true 10
      (fun _ _ => Nat.le_refl 10)
    simp only [initState, List.length_cons, List.length_nil]
    omega

/-- Instance of `c4_page_ceiling`: the scenario run stays within its ceiling. -/
theorem c4_page_ceiling_witness :
    ((crawlMain envC4 1 "https://site.test/").getD
        (initState "https://site.test/")).pages ≤ 1 :=
  c4_page_ceiling.1 envC4 1 "https://site.test/" _ (by decide)

/-! ## C7: the visit scope is same-domain, not same-origin -/

theorem sameDomainB_trans (a b c : String) (h1 : sameDomainB a b = true)
    (h2 : sameDomainB b c = true) : sameDomainB a c = true := by
  unfold sameDomainB at *
  rw [beq_iff_eq] at *
  exact h1.trans h2

/-- Environment in which the start page links to a sibling-subdomain page of
the same registrable domain. -/
def envC7 : Env :=
  { fetchOk := fun _ => true
    page := fun u =>
      if u = "https://example.com/" then
        ⟨"", "", [], ["https://wow.an.example.com/x"]⟩
      else ⟨"", "", [], []⟩ }

/-- C7 counterexample: the crawler fetches
`https://wow.an.example.com/x` from start `https://example.com/` — the two are
same-domain (equal registrable domain) but not same-origin (different host) —
so a visited URL does have a different origin than the crawl target. -/
theorem c7_counterexample :
    (crawlMain envC7 3 "https://example.com/").map
        (fun o => o.processed.contains "https://wow.an.example.com/x") =
      some true ∧
    sameOriginB "https://example.com/" "https://wow.an.example.com/x" = false ∧
    sameDomainB "https://example.com/" "https://wow.an.example.com/x" = true := by
  refine ⟨by decide, by decide, by decide⟩

/-- C7 amended: every URL the crawler ever processes is same-domain with the
start URL (equal registrable domain; subdomains and scheme changes allowed),
which is the guarantee the `same-domain` enqueue strategy actually gives —
not same-origin. -/
theorem c7_domain_scope (env : Env) (K : Nat) (start : String)
    (out : CrawlState) (h : crawlMain env K start = some out) :
    ∀ v ∈ out.processed, sameDomainB start v = true := by
  have key := crawlFuel_inv env K K (fun _ _ => 10) true
    (fun q st => (∀ v ∈ q, sameDomainB start v = true) ∧
      (∀ v ∈ st.processed, sameDomainB start v = true))
    (fun u rest st _ hP =>
      ⟨fun v hv => hP.1 v (List.mem_cons_of_mem _ hv), hP.2⟩)
    (fun u rest st _ _ hP =>
      ⟨fun v hv => hP.1 v (List.mem_cons_of_mem _ hv), hP.2⟩)
    (fun u rest st _ _ _ hP =>
      ⟨fun v hv => hP.1 v (List.mem_cons_of_mem _ hv), hP.2⟩)
    ?_ _ _ _ _ h ?_
  · exact key.2
  · intro u rest st _ _ _ hP
    have hu : sameDomainB start u = true := hP.1 u (List.mem_cons_self _ _)
    constructor
    · intro v hv
      unfold fetchStep at hv
      simp only at hv
      rcases List.mem_append.mp hv with hr | hn
      · exact hP.1 v (List.mem_cons_of_mem _ hr)
      · split at hn
        · have h1 := enqueueCandidates_mem _ _ _ hn
          have h2 := List.mem_of_mem_take h1
          have h3 := (List.mem_filter.mp h2).1
          have h4 := (List.mem_filter.mp h3).2
          exact sameDomainB_trans start u v hu h4
        · cases hn
    · intro v hv
      unfold fetchStep at hv
      simp only at hv
      cases hv with
      | head => exact hu
      | tail _ hr => exact hP.2 v hr
  · constructor
    · intro v hv
      have : v = start := by simpa [initState] using hv
      rw [this]
      simp [sameDomainB]
    · intro v hv
      simp [initState] at hv

/-- Instance of `c7_domain_scope` on the counterexample run: the visited
subdomain page is same-domain with the start URL. -/
theorem c7_domain_scope_witness :
    sameDomainB "https://example.com/" "https://wow.an.example.com/x" = true :=
  c7_domain_scope envC7 3 "https://example.com/"
    ((crawlMain envC7 3 "https://example.com/").getD
      (initState "https://example.com/"))
    (by decide) "https://wow.an.example.com/x" (by decide)

/-! ## C5: the dedup invariant -/

theorem storeEmails_inv (url : String) (cands : List String) :
    ∀ (emails : List String) (records : List EmailRec),
      (∀ r ∈ records, r.email ∈ emails) →
      (∀ r ∈ records, jsToLower r.email = r.email) →
      records.Pairwise (fun a b => a.email ≠ b.email) →
      ((∀ r ∈ (storeEmails url cands emails records).2,
          r.email ∈ (storeEmails url cands emails records).1) ∧
       (∀ r ∈ (storeEmails url cands emails records).2,
          jsToLower r.email = r.email) ∧
       (storeEmails url cands emails records).2.Pairwise
         (fun a b => a.email ≠ b.email)) := by
  induction cands with
  | nil =>
    intro emails records h1 h2 h3
    exact ⟨h1, h2, h3⟩
  | cons e rest ih =>
    intro emails records h1 h2 h3
    unfold storeEmails
    by_cases he : (basicValidation (cleanEmail e) &&
        !(emails.contains (cleanEmail e))) = true
    · rw [if_pos he]
      have hnotmem : cleanEmail e ∉ emails := by
        have := (Bool.and_eq_true _ _ |>.mp he).2
        simp only [Bool.not_eq_true', List.contains, List.elem_eq_mem,
          decide_eq_false_iff_not] at this
        exact this
      apply ih
      · intro r hr
        rcases List.mem_append.mp hr with hold | hnew
        · exact List.mem_append_left _ (h1 r hold)
        · have : r = ⟨url, cleanEmail e⟩ := by simpa using hnew
          rw [this]
          exact List.mem_append_right _ (by simp)
      · intro r hr
        rcases List.mem_append.mp hr with hold | hnew
        · exact h2 r hold
        · have : r = ⟨url, cleanEmail e⟩ := by simpa using hnew
          rw [this]
          exact jsToLower_cleanEmail e
      · rw [List.pairwise_append]
        refine ⟨h3, by simp, ?_⟩
        intro a ha b hb
        have : b = ⟨url, cleanEmail e⟩ := by simpa using hb
        rw [this]
        intro heq
        apply hnotmem
        have hmem := h1 a ha
        rw [heq] at hmem
        exact hmem
    · rw [if_neg he]
      exact ih emails records h1 h2 h3

/-- Two-page environment where the same address is seen twice (with case
variations) — scenario 3's shape. -/
def envC5 : Env :=
  { fetchOk := fun _ => true
    page := fun u =>
      if u = "http://c5.test/" then
        ⟨"write Same@Site.test", "", [], ["http://c5.test/contact"]⟩
      else ⟨"or same@site.test here", "", [], []⟩ }

/-- The record/set relationship the handler maintains: every record's email is
registered in the `uniqueEmails` set, is already lower-cased, and no two
records collide. -/
def recInv (st : CrawlState) : Prop :=
  (∀ r ∈ st.records, r.email ∈ st.emails) ∧
  (∀ r ∈ st.records, jsToLower r.email = r.email) ∧
  st.records.Pairwise (fun a b => a.email ≠ b.email)

/-- C5: in any run, no two emitted email records agree on the lower-cased
email string: every record stores the cleaned (lower-cased, trimmed) email,
the handler emits only emails absent from the `uniqueEmails` set, and the set
grows with every emission. -/
theorem c5_dedup_invariant (env : Env) (K : Nat) (start : String)
    (out : CrawlState) (h : crawlMain env K start = some out) :
    out.records.Pairwise (fun a b => jsToLower a.email ≠ jsToLower b.email) := by
  have key := crawlFuel_inv env K K (fun _ _ => 10) true
    (fun _ st => recInv st)
    (fun _ _ _ _ hP => hP)
    (fun _ _ _ _ _ hP => hP)
    (fun _ _ _ _ _ _ hP => hP)
    (fun u rest st _ _ _ hP => by
      have hs := storeEmails_inv u
        (extractMain (env.page u).text (env.page u).htmlText
          (env.page u).mailtoHrefs) st.emails st.records hP.1 hP.2.1 hP.2.2
      exact hs)
    _ _ _ _ h ⟨by simp [initState], by simp [initState], by simp [initState]⟩
  have hfix := key.2.1
  refine List.Pairwise.imp_of_mem ?_ key.2.2
  intro a b ha hb hne
  rw [hfix a ha, hfix b hb]
  exact hne

/-- Instance of `c5_dedup_invariant` on the two-page duplicate run. -/
theorem c5_dedup_invariant_witness :
    ((crawlMain envC5 3 "http://c5.test/").getD
        (initState "http://c5.test/")).records.Pairwise
      (fun a b => jsToLower a.email ≠ jsToLower b.email) :=
  c5_dedup_invariant envC5 3 "http://c5.test/" _ (by decide)

/-! ## C2: per-target status

src/unnamed/part_002 lines 39-252: for each start URL, a non-http URL pushes a
`type:'error'` record and the loop continues; otherwise the crawler runs and,
because `failedRequestHandler` absorbs every page failure (it only logs and
sets `noRetry`), `crawler.run` resolves normally, after which lines 231-238
always push a `url_result` record with `status: 'success'`, the collected
emails and `pagesScraped: pagesProcessed` — regardless of how many pages were
actually fetched.  The `catch` branch (status `'failed'`) is reached only when
the framework call itself throws, which the absorbed page failures never
cause; the model therefore has no throwing path.  Timestamp fields are not
modelled. -/

inductive SinkRec where
  | emailRec (url email : String)
  | invalidUrl (url : String)
  | urlResult (url status : String) (emails : List String) (pagesScraped : Nat)
deriving DecidableEq

/-- One loop iteration of the part_002 actor for one start URL: the pushed
records, in order (`none` only if the crawl fuel were to run out). -/
def runTargetP2 (env : Env) (startUrl : String) : Option (List SinkRec) :=
  if httpPre startUrl then
    match crawlP2 env startUrl with
    | some fin =>
        some ((fin.records.map fun r => SinkRec.emailRec r.url r.email) ++
          [SinkRec.urlResult startUrl "success" fin.emails fin.pages])
    | none => none
  else some [SinkRec.invalidUrl startUrl]

/-- All-failure environment: every navigation times out. -/
def envC2 : Env :=
  { fetchOk := fun _ => false
    page := fun _ => ⟨"", "", [], []⟩ }

/-- C2 counterexample: when the render of the start URL fails, zero pages are
fetched, yet the finalized per-target record has status `"success"`, not
`"Failed"` — the status reflects only whether `crawler.run` threw. -/
theorem c2_counterexample :
    runTargetP2 envC2 "http://down.test" =
      some [SinkRec.urlResult "http://down.test" "success" [] 0] ∧
    "success" ≠ "failed" := by
  refine ⟨by decide, by decide⟩

/-- C2 amended: for every run in which all navigations fail (so zero pages are
fetched), the process still completes normally and emits the per-target
summary record, but its status is `"success"` with `pagesScraped = 0`;
a `"failed"` status would require `crawler.run` itself to throw, which
absorbed page failures never cause. -/
theorem c2_failed_run_status (env : Env) (start : String)
    (hhttp : httpPre start = true) (hfail : ∀ u, env.fetchOk u = false) :
    runTargetP2 env start = some [SinkRec.urlResult start "success" [] 0] := by
  unfold runTargetP2
  rw [if_pos hhttp]
  have hc : crawlP2 env start = some (renderFailStep (initState start)) := by
    unfold crawlP2
    show crawlFuel env 3 3 (fun d p => 3 - d - p) false (13 + 1)
        [start] (initState start) = _
    unfold crawlFuel
    rw [if_neg (by simp [initState]), hfail start]
    simp only [Bool.false_eq_true, if_false]
    rfl
  rw [hc]
  rfl

/-- Instance of `c2_failed_run_status`. -/
theorem c2_failed_run_status_witness :
    runTargetP2 envC2 "http://dead.test" =
      some [SinkRec.urlResult "http://dead.test" "success" [] 0] :=
  c2_failed_run_status envC2 "http://dead.test" (by decide) (fun _ => rfl)

end Scraper
